import Mathlib

/-!
Shallow embedding of the two modules of this repository:

* `src/src/unix-io/unix-io.c`, the POSIX VFS transport plugin
  (`unix_fopen`, `unix_fclose`, `unix_fread`, `unix_fwrite`,
  `unix_fseek`, `unix_ftell`, `unix_getc`, `unix_ungetc`, `unix_feof`,
  `unix_truncate`, `unix_fsize`), and

* the playlist tree-view helpers (`playlist_select_range`,
  `playlist_count_selected_in_range`, `treeview_set_focus`,
  `treeview_set_focus_now`, `treeview_refresh_selection`,
  `treeview_refresh_selection_now`).

The OS / toolkit layer is modelled explicitly: the read/write retry
loops are parametrised by the sequence of syscall outcomes, and the
file-state model records the syscalls performed in a log so that
claims about the sequencing of OS primitives can be stated.
-/

namespace UnixIo

/-- `EOF` as in `<stdio.h>`. -/
def EOF : Int := -1

/-- Outcome of one `read(2)` / `write(2)` syscall as seen by the retry
loops of `unix_fread` / `unix_fwrite`: `err` is a `-1` return,
`ok k` is a transfer of `k` bytes. -/
inductive SysResult where
  | err : SysResult
  | ok : Nat → SysResult
deriving DecidableEq, Repr

/-- Why the retry loop stopped: the byte goal was reached, the syscall
transferred zero bytes, the syscall returned `-1`, or the modelled
outcome trace was exhausted before the loop stopped on its own. -/
inductive Stop where
  | goalReached : Stop
  | zeroTransfer : Stop
  | osError : Stop
  | outOfTrace : Stop
deriving DecidableEq, Repr

/-- The loop of `unix_fread` (unix-io.c lines 121-135): while the byte
total is below the goal, issue a `read`; a `-1` return breaks, a
zero-byte return breaks, otherwise the transferred bytes are added to
the running total. Returns the byte total and the stop reason. -/
def freadLoop (goal : Nat) : List SysResult → Nat → Nat × Stop
  | [], total =>
      if goal ≤ total then (total, Stop.goalReached) else (total, Stop.outOfTrace)
  | r :: rest, total =>
      if goal ≤ total then (total, Stop.goalReached)
      else
        match r with
        | SysResult.err => (total, Stop.osError)
        | SysResult.ok 0 => (total, Stop.zeroTransfer)
        | SysResult.ok k => freadLoop goal rest (total + k)

/-- The loop of `unix_fwrite` (unix-io.c lines 151-162): identical to
the read loop except that a zero-byte transfer does NOT break — the
loop only breaks on a `-1` return. -/
def fwriteLoop (goal : Nat) : List SysResult → Nat → Nat × Stop
  | [], total =>
      if goal ≤ total then (total, Stop.goalReached) else (total, Stop.outOfTrace)
  | r :: rest, total =>
      if goal ≤ total then (total, Stop.goalReached)
      else
        match r with
        | SysResult.err => (total, Stop.osError)
        | SysResult.ok k => fwriteLoop goal rest (total + k)

/-- POSIX validity of an outcome trace: each successful transfer is at
most the number of bytes requested at that point of the loop
(`goal - total`). Outcomes after an error are unconstrained (the
loops stop there). -/
def validTrace (goal : Nat) : List SysResult → Nat → Bool
  | [], _ => true
  | r :: rest, total =>
      if goal ≤ total then true
      else
        match r with
        | SysResult.err => true
        | SysResult.ok k => decide (k ≤ goal - total) && validTrace goal rest (total + k)

/-- Two's-complement value of a natural number truncated to a 32-bit
signed `gint`, as in the C assignment `gint goal = size * nitems`
(unix-io.c lines 116 and 146) whose `size_t` product wraps for values
at or above `2^31`. -/
def gint (n : Nat) : Int :=
  let m : Nat := n % 2 ^ 32
  if m < 2 ^ 31 then (m : Int) else (m : Int) - 2 ^ 32

/-- `unix_fread` (unix-io.c lines 112-140): byte goal
`gint goal = size * nitems` (a 32-bit signed value, see `gint`), run
the retry loop, and return `total / size` whole elements, guarding the
division with `(size > 0) ? total / size : 0`. The loop guard
`total < goal` over `gint`s, with `total` starting at 0 and never
decreasing, is equivalent to comparing the nonnegative total against
`goal.toNat` (a nonpositive wrapped goal never enters the loop). -/
def unix_fread (size nitems : Nat) (trace : List SysResult) : Nat :=
  let goal := gint (size * nitems)
  let total := (freadLoop goal.toNat trace 0).1
  if 0 < size then total / size else 0

/-- `unix_fwrite` (unix-io.c lines 142-167): same shape as
`unix_fread`, with the write retry loop and the same wrapping 32-bit
byte goal. -/
def unix_fwrite (size nitems : Nat) (trace : List SysResult) : Nat :=
  let goal := gint (size * nitems)
  let total := (fwriteLoop goal.toNat trace 0).1
  if 0 < size then total / size else 0

/-- `lseek` whence values. -/
inductive Whence where
  | seekSet : Whence
  | seekCur : Whence
  | seekEnd : Whence
deriving DecidableEq, Repr

/-- The OS primitives invoked by the plugin, as recorded in the file
state's syscall log. -/
inductive Syscall where
  | lseekC : Int → Whence → Syscall
  | readC : Nat → Syscall
  | ftruncateC : Int → Syscall
  | fsyncC : Syscall
  | closeC : Syscall
deriving DecidableEq, Repr

/-- A seek syscall? Used to state which operations are built from seek
primitives. -/
def isSeekCall : Syscall → Bool
  | Syscall.lseekC _ _ => true
  | _ => false

/-- Deterministic model of an open POSIX descriptor: byte contents,
current offset, whether the object supports `lseek` (a regular file
does, a pipe or socket does not and fails with `ESPIPE`), how many of
the next `read` calls fail with an OS error (`-1`, e.g. a transient
`EINTR`-like failure; 0 means reads succeed), whether `fsync` on it
fails, whether the descriptor is still open, and the log of syscalls
issued on it (most recent last). -/
structure File where
  data : List Nat
  pos : Nat
  seekable : Bool
  readErrs : Nat
  syncFails : Bool
  isOpen : Bool
  log : List Syscall
deriving DecidableEq, Repr

/-- `read(2)` on the deterministic model: returns `-1` while the
descriptor still has pending read errors (consuming one, position
untouched); otherwise transfers `min requested (length - pos)` bytes
(zero at or past end of file) and advances the offset by the
transfer. -/
def sysRead (f : File) (n : Nat) : Int × File :=
  if f.readErrs ≠ 0 then
    (-1, { f with readErrs := f.readErrs - 1, log := f.log ++ [Syscall.readC n] })
  else
    let k := min n (f.data.length - f.pos)
    ((k : Int), { f with pos := f.pos + k, log := f.log ++ [Syscall.readC n] })

/-- `lseek(2)`: fails (`-1`) on a non-seekable descriptor or on a
negative resulting offset; otherwise returns the new offset and moves
the position. -/
def sysLseek (f : File) (offset : Int) (whence : Whence) : Int × File :=
  let f1 := { f with log := f.log ++ [Syscall.lseekC offset whence] }
  if f.seekable then
    let base : Int :=
      match whence with
      | Whence.seekSet => 0
      | Whence.seekCur => (f.pos : Int)
      | Whence.seekEnd => (f.data.length : Int)
    let newPos := base + offset
    if newPos < 0 then (-1, f1)
    else (newPos, { f1 with pos := newPos.toNat })
  else (-1, f1)

/-- `ftruncate(2)`: fails on a non-seekable descriptor (`EINVAL` on a
pipe) or a negative length; otherwise resizes the contents to exactly
`length` bytes, zero-filling any extension, leaving the offset
alone. -/
def sysFtruncate (f : File) (length : Int) : Int × File :=
  let f1 := { f with log := f.log ++ [Syscall.ftruncateC length] }
  if f.seekable ∧ 0 ≤ length then
    (0, { f1 with
          data := f.data.take length.toNat ++
            List.replicate (length.toNat - f.data.length) 0 })
  else (-1, f1)

/-- `fsync(2)`: fails iff the descriptor's `syncFails` flag is set. -/
def sysFsync (f : File) : Int × File :=
  ((if f.syncFails then -1 else 0), { f with log := f.log ++ [Syscall.fsyncC] })

/-- `close(2)`: marks the descriptor closed. -/
def sysClose (f : File) : File :=
  { f with isOpen := false, log := f.log ++ [Syscall.closeC] }

/-- The `unix_fread` retry loop run against the deterministic
descriptor model, mirroring unix-io.c lines 121-135: a `-1` return
breaks (the OS-error branch at line 125), a zero-byte return breaks,
otherwise the transfer is added to the total. Structural fuel bounds
the iteration count (each productive iteration transfers at least one
byte, so `goal + 1` units of fuel always suffice). -/
def detReadLoop : Nat → File → Nat → Nat → Nat × File
  | 0, f, _, total => (total, f)
  | fuel + 1, f, goal, total =>
      if goal ≤ total then (total, f)
      else
        let r := sysRead f (goal - total)
        if r.1 = -1 then (total, r.2)
        else if r.1 = 0 then (total, r.2)
        else detReadLoop fuel r.2 goal (total + r.1.toNat)

/-- `unix_fread` against the deterministic descriptor: wrapping 32-bit
byte goal `gint (size * nitems)`, retry loop, then
`(size > 0) ? total / size : 0` whole elements, coupled with the final
descriptor state. -/
def detFread (f : File) (size nitems : Nat) : Nat × File :=
  let goal := (gint (size * nitems)).toNat
  let r := detReadLoop (goal + 1) f goal 0
  ((if 0 < size then r.1 / size else 0), r.2)

/-- `unix_fseek` (unix-io.c lines 169-182): `0` on success, `-1` if
the underlying `lseek` failed. -/
def unix_fseek (f : File) (offset : Int) (whence : Whence) : Int × File :=
  let r := sysLseek f offset whence
  if r.1 = -1 then (-1, r.2) else (0, r.2)

/-- `unix_ftell` (unix-io.c lines 184-193): returns
`lseek(handle, 0, SEEK_CUR)`, which is `-1` on failure. -/
def unix_ftell (f : File) : Int × File :=
  sysLseek f 0 Whence.seekCur

/-- `unix_getc` (unix-io.c lines 195-200): reads one byte through
`unix_fread (&c, 1, 1, file)`; if exactly one element was read the
byte (an unsigned char, hence never `EOF`) is returned, else `EOF`. -/
def unix_getc (f : File) : Int × File :=
  let r := detFread f 1 1
  if r.1 = 1 then ((f.data.getD f.pos 0 : Int), r.2) else (EOF, r.2)

/-- `unix_ungetc` (unix-io.c lines 202-205): seeks back one byte and
returns `c` if that seek succeeded, `EOF` otherwise. -/
def unix_ungetc (c : Int) (f : File) : Int × File :=
  let r := unix_fseek f (-1) Whence.seekCur
  if r.1 = 0 then (c, r.2) else (EOF, r.2)

/-- `unix_feof` (unix-io.c lines 212-221): probe one byte with
`unix_getc`; `EOF` means end of file (report `true`); otherwise push
the byte back with `unix_ungetc` (whose result is ignored) and report
`false`. -/
def unix_feof (f : File) : Bool × File :=
  let g := unix_getc f
  if g.1 = EOF then (true, g.2)
  else
    let u := unix_ungetc g.1 g.2
    (false, u.2)

/-- `unix_truncate` (unix-io.c lines 223-235): a single `ftruncate`
call; `TRUE` on success, `FALSE` if it returned `-1`. -/
def unix_truncate (f : File) (length : Int) : Bool × File :=
  let r := sysFtruncate f length
  if r.1 = -1 then (false, r.2) else (true, r.2)

/-- `unix_fsize` (unix-io.c lines 237-255): save the position with
`unix_ftell`, seek to the end, read the offset there, seek back to the
saved position, and return the end offset; `-1` if either tell
failed. -/
def unix_fsize (f : File) : Int × File :=
  let t1 := unix_ftell f
  if t1.1 = -1 then (-1, t1.2)
  else
    let s1 := unix_fseek t1.2 0 Whence.seekEnd
    let t2 := unix_ftell s1.2
    if t2.1 = -1 then (-1, t2.2)
    else
      let s2 := unix_fseek t2.2 t1.1 Whence.seekSet
      (t2.1, s2.2)

/-- `unix_fclose` (unix-io.c lines 95-110): `fsync` first (a failure
only sets the `EOF` result), then `close` unconditionally. -/
def unix_fclose (f : File) : Int × File :=
  let s := sysFsync f
  let result : Int := if s.1 = -1 then EOF else 0
  (result, sysClose s.2)

/-- Access component of an `open(2)` flag word. -/
inductive Access where
  | rdonly : Access
  | wronly : Access
  | rdwr : Access
deriving DecidableEq, Repr

/-- The `open(2)` flag combination selected by `unix_fopen`:
`O_RDONLY`/`O_WRONLY`/`O_RDWR` plus the `O_CREAT`, `O_TRUNC` and
`O_APPEND` bits. -/
structure OpenFlags where
  access : Access
  o_creat : Bool
  o_trunc : Bool
  o_append : Bool
deriving DecidableEq, Repr

/-- Mode-string analysis of `unix_fopen` (unix-io.c lines 51-66):
`update = strchr(mode, chr) != NULL` with `chr` the plus sign, then a
switch on `mode[0]` with cases `r`, `w`, `a` and a default returning
NULL (modelled as `none`; the empty string's `mode[0]` is the NUL
terminator, also the default case). -/
def modeFlags (mode : String) : Option OpenFlags :=
  let update := mode.data.contains '+'
  match mode.data.head? with
  | some 'r' => some ⟨if update then Access.rdwr else Access.rdonly, false, false, false⟩
  | some 'w' => some ⟨if update then Access.rdwr else Access.wronly, true, true, false⟩
  | some 'a' => some ⟨if update then Access.rdwr else Access.wronly, true, false, true⟩
  | _ => none

/-- `unix_fopen` (unix-io.c lines 41-93). The two external effects are
parameters: `uriPath` is the result of `g_filename_from_uri` (NULL
modelled as `none`) and `osOpen` is `open(2)` (failure `none`). A bad
mode character, a failed URI conversion or a failed `open` each yield
the NULL handle (`none`); otherwise the descriptor is wrapped in a
handle. -/
def unix_fopen (mode : String) (uriPath : Option String)
    (osOpen : OpenFlags → String → Option Nat) : Option Nat :=
  match modeFlags mode with
  | none => none
  | some flags =>
      match uriPath with
      | none => none
      | some filename =>
          match osOpen flags filename with
          | none => none
          | some fd => some fd

end UnixIo

namespace Gtkui

/-- Toolkit-facing effects performed by the tree-view helpers, in
order. -/
inductive UIEvent where
  | blockEv : Bool → UIEvent
  | setCursorEv : Nat → UIEvent
  | scrollEv : Nat → UIEvent
deriving DecidableEq, Repr

/-- State of one playlist tree view together with the slice of the
external playlist model it displays. `flags` are the playlist's
authoritative per-row selected flags (`aud_playlist_entry_get_selected`,
row count `flags.length` = `aud_playlist_entry_count`); `guiSel` is the
GTK tree selection's per-row visual selected state; `cursor` the GTK
cursor row; `focus_changed`, `selection_changed` and `focus` are the
`UiPlaylistModel` fields of the same names. -/
structure View where
  flags : List Bool
  guiSel : List Bool
  cursor : Option Nat
  focus_changed : Bool
  selection_changed : Bool
  focus : Int
deriving DecidableEq, Repr

/-- `gtk_tree_view_set_cursor`: moves the cursor to `row` and, as a
side effect, replaces the selection with that row alone (the source
comments on this: `set_cursor changes selection`). -/
def gtkSetCursor (v : View) (row : Nat) : View :=
  { v with
    cursor := some row,
    guiSel := (List.range v.guiSel.length).map (fun i => decide (i = row)) }

/-- The row loop of `treeview_refresh_selection_now`: walk an iterator
from the first row, selecting row `i` when flag `i` is set and
unselecting it otherwise. -/
def refreshRows : List Bool → Nat → List Bool → List Bool
  | [], _, gui => gui
  | b :: rest, i, gui => refreshRows rest (i + 1) (gui.set i b)

/-- `treeview_refresh_selection_now` (part_000 lines 304-326): nothing
happens when the playlist has no entries; otherwise every row's visual
selected state is forced to the playlist's flag for that row. -/
def treeview_refresh_selection_now (v : View) : View :=
  if v.flags.length = 0 then v
  else { v with guiSel := refreshRows v.flags 0 v.guiSel }

/-- `treeview_set_focus_now` (part_000 lines 269-288): a negative
focus is a no-op on an empty playlist and row 0 otherwise; then the
cursor is set (which disturbs the selection), the row is scrolled into
view, and the selection is re-synchronised from the playlist flags. -/
def treeview_set_focus_now (v : View) (focus : Int) : View × List UIEvent :=
  if focus < 0 ∧ v.flags.length = 0 then (v, [])
  else
    let row := if focus < 0 then 0 else focus.toNat
    let v1 := gtkSetCursor v row
    (treeview_refresh_selection_now v1,
     [UIEvent.setCursorEv row, UIEvent.scrollEv row])

/-- `treeview_set_focus` (part_000 lines 252-267): if the host reports
a playlist update pending, only record the deferred focus in the model
(`focus_changed`, `focus`); otherwise apply it now between a
block-updates and an unblock-updates call. -/
def treeview_set_focus (v : View) (pending : Bool) (focus : Int) :
    View × List UIEvent :=
  if pending then ({ v with focus_changed := true, focus := focus }, [])
  else
    let r := treeview_set_focus_now v focus
    (r.1, UIEvent.blockEv true :: r.2 ++ [UIEvent.blockEv false])

/-- `treeview_refresh_selection` (part_000 lines 290-302): same
dichotomy with the `selection_changed` flag and
`treeview_refresh_selection_now`. -/
def treeview_refresh_selection (v : View) (pending : Bool) :
    View × List UIEvent :=
  if pending then ({ v with selection_changed := true }, [])
  else
    (treeview_refresh_selection_now v,
     [UIEvent.blockEv true, UIEvent.blockEv false])

/-- `aud_playlist_select_all(list, b)`: host call setting every row's
selected flag to `b`. -/
def aud_playlist_select_all (flags : List Bool) (b : Bool) : List Bool :=
  flags.map (fun _ => b)

/-- `aud_playlist_entry_set_selected(list, i, b)`: host call setting
row `i`'s selected flag (out-of-range rows are left untouched). -/
def aud_playlist_entry_set_selected (flags : List Bool) (i : Nat) (b : Bool) :
    List Bool :=
  flags.set i b

/-- `aud_playlist_entry_get_selected(list, i)`: host call reading row
`i`'s selected flag (`FALSE` for an out-of-range row). -/
def aud_playlist_entry_get_selected (flags : List Bool) (i : Nat) : Bool :=
  flags.getD i false

/-- `playlist_select_range` (part_000 lines 213-221): deselect every
row, then set rows `top`, `top+1`, ..., `top+length-1` selected. -/
def playlist_select_range (flags : List Bool) (top length : Nat) : List Bool :=
  (List.range length).foldl
    (fun f count => aud_playlist_entry_set_selected f (top + count) true)
    (aud_playlist_select_all flags false)

/-- `playlist_count_selected_in_range` (part_000 lines 223-235): count
the selected rows among `top`, ..., `top+length-1`. -/
def playlist_count_selected_in_range (flags : List Bool) (top length : Nat) :
    Nat :=
  (List.range length).foldl
    (fun selected count =>
      if aud_playlist_entry_get_selected flags (top + count) then selected + 1
      else selected)
    0

end Gtkui

open UnixIo Gtkui

/-- Claim C9: `unix_fclose` first flushes via `fsync` and then closes the
descriptor; it returns the failure sentinel `EOF` iff the sync fails and
`0` otherwise, and the descriptor is closed on both paths (the syscall
log shows `fsync` strictly before `close`). -/
theorem unix_fclose_sync_then_close (f : File) :
    ((unix_fclose f).1 = EOF ↔ f.syncFails = true) ∧
    ((unix_fclose f).1 = 0 ↔ f.syncFails = false) ∧
    (unix_fclose f).2.isOpen = false ∧
    (unix_fclose f).2.log = f.log ++ [Syscall.fsyncC, Syscall.closeC] := by
  cases hb : f.syncFails <;>
    simp [unix_fclose, sysFsync, sysClose, EOF, hb]

/-- Claim C10: a `unix_fread` or `unix_fwrite` call with element size 0
returns 0; the guarded division never divides by zero and the loop
transfers no bytes because the byte goal `0 * n` is already met
(it stops at once with the goal reached). -/
theorem unix_io_zero_size_returns_zero (nitems : Nat) (trace : List SysResult) :
    unix_fread 0 nitems trace = 0 ∧
    unix_fwrite 0 nitems trace = 0 ∧
    freadLoop (0 * nitems) trace 0 = (0, Stop.goalReached) ∧
    fwriteLoop (0 * nitems) trace 0 = (0, Stop.goalReached) := by
  cases trace <;>
    simp [unix_fread, unix_fwrite, freadLoop, fwriteLoop]

/-- Claim C3: `unix_fopen` selects exactly the documented flag
combination for each of the six modes, and returns the NULL handle when
the first mode character is not `r`/`w`/`a`, when URI-to-path conversion
fails, and when the OS `open` fails. -/
theorem unix_fopen_mode_selection :
    modeFlags "r" = some ⟨Access.rdonly, false, false, false⟩ ∧
    modeFlags "r+" = some ⟨Access.rdwr, false, false, false⟩ ∧
    modeFlags "w" = some ⟨Access.wronly, true, true, false⟩ ∧
    modeFlags "w+" = some ⟨Access.rdwr, true, true, false⟩ ∧
    modeFlags "a" = some ⟨Access.wronly, true, false, true⟩ ∧
    modeFlags "a+" = some ⟨Access.rdwr, true, false, true⟩ ∧
    (∀ (mode : String) (uriPath : Option String)
       (osOpen : OpenFlags → String → Option Nat),
      mode.data.head? ≠ some 'r' → mode.data.head? ≠ some 'w' →
      mode.data.head? ≠ some 'a' →
      unix_fopen mode uriPath osOpen = none) ∧
    (∀ (mode : String) (osOpen : OpenFlags → String → Option Nat),
      unix_fopen mode none osOpen = none) ∧
    (∀ (mode : String) (uriPath : Option String),
      unix_fopen mode uriPath (fun _ _ => none) = none) := by
  refine ⟨by decide, by decide, by decide, by decide, by decide, by decide,
    ?_, ?_, ?_⟩
  · intro mode uriPath osOpen h1 h2 h3
    have hmf : modeFlags mode = none := by
      unfold modeFlags
      split <;> simp_all
    simp [unix_fopen, hmf]
  · intro mode osOpen
    unfold unix_fopen
    cases modeFlags mode <;> simp
  · intro mode uriPath
    unfold unix_fopen
    cases modeFlags mode <;> cases uriPath <;> simp

/-- Witness for C3 at concrete inputs. -/
theorem unix_fopen_mode_selection_witness :
    unix_fopen "x" (some "f") (fun _ _ => some 3) = none ∧
    modeFlags "r" = some ⟨Access.rdonly, false, false, false⟩ :=
  ⟨unix_fopen_mode_selection.2.2.2.2.2.2.1 "x" (some "f") (fun _ _ => some 3)
      (by decide) (by decide) (by decide),
   unix_fopen_mode_selection.1⟩

/-- Claim C7: with a playlist update pending, `treeview_set_focus` only
sets `focus_changed` and records the pending focus row, leaving the
visible cursor and selection untouched; otherwise it applies the focus
immediately via `treeview_set_focus_now`, bracketed by block-updates
true / false. The analogous dichotomy holds for
`treeview_refresh_selection` with `selection_changed`. -/
theorem treeview_set_focus_dichotomy (v : View) (focus : Int) :
    (treeview_set_focus v true focus =
        ({ v with focus_changed := true, focus := focus }, []) ∧
      (treeview_set_focus v true focus).1.cursor = v.cursor ∧
      (treeview_set_focus v true focus).1.guiSel = v.guiSel) ∧
    treeview_set_focus v false focus =
      ((treeview_set_focus_now v focus).1,
        UIEvent.blockEv true :: (treeview_set_focus_now v focus).2 ++
          [UIEvent.blockEv false]) ∧
    treeview_refresh_selection v true =
      ({ v with selection_changed := true }, []) ∧
    treeview_refresh_selection v false =
      (treeview_refresh_selection_now v,
        [UIEvent.blockEv true, UIEvent.blockEv false]) := by
  refine ⟨⟨rfl, rfl, rfl⟩, ?_, rfl, rfl⟩
  simp [treeview_set_focus]

/-- Counterexample to claim C5: on a seekable file, a successful
`unix_truncate` performs exactly one `ftruncate` syscall and no seek
primitive at all, so the truncate operation is not computed by a
save-position / seek-to-end / seek-back sequence. -/
theorem unix_truncate_no_seek_counterexample :
    (unix_truncate ⟨[1, 2, 3], 1, true, 0, false, true, []⟩ 5).1 = true ∧
    (unix_truncate ⟨[1, 2, 3], 1, true, 0, false, true, []⟩ 5).2.log =
      [Syscall.ftruncateC 5] ∧
    (unix_truncate ⟨[1, 2, 3], 1, true, 0, false, true, []⟩ 5).2.log.filter
      isSeekCall = [] := by
  decide

theorem detReadLoop_succ (fuel : Nat) (f : File) (goal total : Nat) :
    detReadLoop (fuel + 1) f goal total =
      if goal ≤ total then (total, f)
      else
        let r := sysRead f (goal - total)
        if r.1 = -1 then (total, r.2)
        else if r.1 = 0 then (total, r.2)
        else detReadLoop fuel r.2 goal (total + r.1.toNat) := rfl

theorem gint_one : gint 1 = 1 := by decide

theorem unix_getc_err (f : File) (h : f.readErrs ≠ 0) :
    unix_getc f = (EOF, { f with readErrs := f.readErrs - 1,
                                 log := f.log ++ [Syscall.readC 1] }) := by
  unfold unix_getc detFread
  simp [detReadLoop_succ, sysRead, h, gint_one]

theorem unix_getc_at_end (f : File) (hr : f.readErrs = 0)
    (h : f.data.length ≤ f.pos) :
    unix_getc f = (EOF, { f with log := f.log ++ [Syscall.readC 1] }) := by
  have h0 : min 1 (f.data.length - f.pos) = 0 := by omega
  unfold unix_getc detFread
  simp [detReadLoop_succ, sysRead, h0, hr, gint_one]

theorem unix_getc_mid (f : File) (hr : f.readErrs = 0)
    (h : f.pos < f.data.length) :
    unix_getc f = ((f.data.getD f.pos 0 : Int),
      { f with pos := f.pos + 1, log := f.log ++ [Syscall.readC 1] }) := by
  have h0 : min 1 (f.data.length - f.pos) = 1 := by omega
  unfold unix_getc detFread
  simp [detReadLoop_succ, sysRead, h0, hr, gint_one]

theorem unix_feof_err (f : File) (h : f.readErrs ≠ 0) :
    unix_feof f = (true, { f with readErrs := f.readErrs - 1,
                                  log := f.log ++ [Syscall.readC 1] }) := by
  unfold unix_feof
  rw [unix_getc_err f h]
  simp [EOF]

theorem unix_feof_at_end (f : File) (hr : f.readErrs = 0)
    (h : f.data.length ≤ f.pos) :
    unix_feof f = (true, { f with log := f.log ++ [Syscall.readC 1] }) := by
  unfold unix_feof
  rw [unix_getc_at_end f hr h]
  simp [EOF]

theorem unix_feof_mid_seekable (f : File) (hr : f.readErrs = 0)
    (h : f.pos < f.data.length) (hs : f.seekable = true) :
    unix_feof f = (false,
      { f with log := f.log ++
          [Syscall.readC 1, Syscall.lseekC (-1) Whence.seekCur] }) := by
  have hb : ¬((f.data.getD f.pos 0 : Int) = EOF) := by unfold EOF; omega
  have e1 : ((f.pos + 1 : Nat) : Int) + (-1) = (f.pos : Int) := by push_cast; ring
  have h1 : ¬((f.pos : Int) < 0) := by omega
  have h2 : ((f.pos : Int) = -1) = False := by simp
  unfold unix_feof
  rw [unix_getc_mid f hr h, if_neg hb]
  unfold unix_ungetc unix_fseek sysLseek
  simp [hs, e1, h1, h2]

theorem unix_feof_mid_pipe (f : File) (hr : f.readErrs = 0)
    (h : f.pos < f.data.length) (hs : f.seekable = false) :
    unix_feof f = (false,
      { f with pos := f.pos + 1,
               log := f.log ++
                 [Syscall.readC 1, Syscall.lseekC (-1) Whence.seekCur] }) := by
  have hb : ¬((f.data.getD f.pos 0 : Int) = EOF) := by unfold EOF; omega
  unfold unix_feof
  rw [unix_getc_mid f hr h, if_neg hb]
  unfold unix_ungetc unix_fseek sysLseek
  simp [hs]

/-- Counterexample to claim C1, on two branches. (1) Seek-back failing
with an OS error: on a non-seekable descriptor (a pipe) positioned at a
byte, the probe read succeeds but the seek-back fails; `unix_feof`
reports `false` even though a subsequent read transfers zero bytes, and
it has advanced the file position by one byte. (2) Probe read failing
with an OS error: on a seekable file with a byte available whose next
read fails transiently, `unix_feof` reports `true` even though a
subsequent read transfers one byte. -/
theorem unix_feof_pipe_counterexample :
    ((unix_feof ⟨[0], 0, false, 0, false, true, []⟩).1 = false ∧
     (unix_feof ⟨[0], 0, false, 0, false, true, []⟩).2.pos = 1 ∧
     (sysRead (unix_feof ⟨[0], 0, false, 0, false, true, []⟩).2 1).1 = 0) ∧
    ((unix_feof ⟨[7], 0, true, 1, false, true, []⟩).1 = true ∧
     (unix_feof ⟨[7], 0, true, 1, false, true, []⟩).2.pos = 0 ∧
     (sysRead (unix_feof ⟨[7], 0, true, 1, false, true, []⟩).2 1).1 = 1) := by
  decide

/-- Amended claim C1: `unix_feof` returns true iff the probe read
transfers no byte (end of file, or the probe read failing with an OS
error). On the probe-read-error branch and the end-of-file branch the
file position is unchanged, and on the probe-success branch with a
succeeding seek-back it is restored; on the end-of-file and
successful-probe branches the result moreover equals whether a
subsequent read would transfer zero bytes. But when the probe read
fails with a transient OS error, `unix_feof` reports true even though a
subsequent read may transfer bytes; and when the seek-back fails with
an OS error (a non-seekable descriptor with a byte available),
`unix_feof` returns false and leaves the position advanced by one
byte. -/
theorem unix_feof_amended (f : File) :
    (f.readErrs ≠ 0 →
      ((unix_feof f).1 = true ∧ (unix_feof f).2.pos = f.pos ∧
       (unix_feof f).2.readErrs = f.readErrs - 1)) ∧
    (f.readErrs = 0 → f.data.length ≤ f.pos →
      ((unix_feof f).1 = true ∧ (unix_feof f).2.pos = f.pos ∧
       (∀ n, 0 < n → (sysRead (unix_feof f).2 n).1 = 0))) ∧
    (f.readErrs = 0 → f.pos < f.data.length → f.seekable = true →
      ((unix_feof f).1 = false ∧ (unix_feof f).2.pos = f.pos ∧
       (∀ n, 0 < n → (sysRead (unix_feof f).2 n).1 ≠ 0))) ∧
    (f.readErrs = 0 → f.pos < f.data.length → f.seekable = false →
      ((unix_feof f).1 = false ∧ (unix_feof f).2.pos = f.pos + 1)) := by
  refine ⟨?_, ?_, ?_, ?_⟩
  · intro hr
    rw [unix_feof_err f hr]
    simp
  · intro hr h
    rw [unix_feof_at_end f hr h]
    simp [sysRead, hr]
    intro n
    omega
  · intro hr h hs
    rw [unix_feof_mid_seekable f hr h hs]
    simp [sysRead, hr]
    intro n hn
    omega
  · intro hr h hs
    rw [unix_feof_mid_pipe f hr h hs]
    simp

/-- Witness for the amended C1 at a concrete seekable file with a byte
available and no pending read error. -/
theorem unix_feof_amended_witness :
    (unix_feof ⟨[5], 0, true, 0, false, true, []⟩).2.pos = 0 :=
  ((unix_feof_amended ⟨[5], 0, true, 0, false, true, []⟩).2.2.1 rfl
    (by decide) rfl).2.1

theorem unix_fsize_seekable (f : File) (hs : f.seekable = true) :
    unix_fsize f = ((f.data.length : Int),
      { f with log := f.log ++
          [Syscall.lseekC 0 Whence.seekCur, Syscall.lseekC 0 Whence.seekEnd,
           Syscall.lseekC 0 Whence.seekCur,
           Syscall.lseekC (f.pos : Int) Whence.seekSet] }) := by
  obtain ⟨d, p, sk, re, sy, op, lg⟩ := f
  simp only at hs
  subst hs
  have h1 : ¬((p : Int) < 0) := by omega
  have h2 : ((p : Int) = -1) = False := by simp
  have h3 : ¬((d.length : Int) < 0) := by omega
  have h4 : ((d.length : Int) = -1) = False := by simp
  simp [unix_fsize, unix_ftell, unix_fseek, sysLseek, h1, h2, h3, h4]

theorem unix_truncate_result (f : File) (L : Int) (hs : f.seekable = true)
    (hL : 0 ≤ L) :
    unix_truncate f L = (true,
      { f with
        data := f.data.take L.toNat ++ List.replicate (L.toNat - f.data.length) 0,
        log := f.log ++ [Syscall.ftruncateC L] }) := by
  unfold unix_truncate sysFtruncate
  simp [hs, hL]

theorem unix_truncate_success (f : File) (L : Int)
    (h : (unix_truncate f L).1 = true) : f.seekable = true ∧ 0 ≤ L := by
  by_cases hc : f.seekable = true ∧ 0 ≤ L
  · exact hc
  · exfalso
    unfold unix_truncate sysFtruncate at h
    rw [if_neg hc] at h
    simp at h

/-- Claim C4: after a successful `unix_truncate` of the file to length
`L`, `unix_fsize` returns `L`, and afterwards the file position is the
position the file had before the truncate (neither operation moves
it). -/
theorem unix_truncate_fsize_roundtrip (f : File) (L : Int)
    (h : (unix_truncate f L).1 = true) :
    (unix_fsize (unix_truncate f L).2).1 = L ∧
    (unix_fsize (unix_truncate f L).2).2.pos = f.pos ∧
    (unix_truncate f L).2.pos = f.pos := by
  obtain ⟨hs, hL⟩ := unix_truncate_success f L h
  rw [unix_truncate_result f L hs hL]
  rw [unix_fsize_seekable _ (by simpa using hs)]
  refine ⟨?_, rfl, rfl⟩
  simp
  omega

/-- Witness for C4 at a concrete file and length. -/
theorem unix_truncate_fsize_roundtrip_witness :
    (unix_fsize (unix_truncate ⟨[1, 2, 3], 1, true, 0, false, true, []⟩ 5).2).1 = 5 :=
  (unix_truncate_fsize_roundtrip ⟨[1, 2, 3], 1, true, 0, false, true, []⟩ 5
    (by decide)).1

/-- Amended claim C5: the size operation is computed by a save-position
(`lseek 0 SEEK_CUR`) / seek-to-end / read-offset / seek-back sequence of
seek primitives, but the truncate operation is a single `ftruncate`
syscall that performs no seek at all. -/
theorem unix_fsize_seek_sequence (f : File) (L : Int)
    (hs : f.seekable = true) (hL : 0 ≤ L) :
    (unix_fsize f).2.log = f.log ++
      [Syscall.lseekC 0 Whence.seekCur, Syscall.lseekC 0 Whence.seekEnd,
       Syscall.lseekC 0 Whence.seekCur,
       Syscall.lseekC (f.pos : Int) Whence.seekSet] ∧
    (unix_truncate f L).2.log = f.log ++ [Syscall.ftruncateC L] ∧
    ((unix_truncate f L).2.log.filter isSeekCall = f.log.filter isSeekCall) := by
  rw [unix_fsize_seekable f hs, unix_truncate_result f L hs hL]
  refine ⟨rfl, rfl, ?_⟩
  simp [isSeekCall]

/-- Witness for the amended C5 at a concrete file and length. -/
theorem unix_fsize_seek_sequence_witness :
    (unix_truncate ⟨[1, 2, 3], 1, true, 0, false, true, []⟩ 5).2.log.filter
      isSeekCall = [] :=
  (unix_fsize_seek_sequence ⟨[1, 2, 3], 1, true, 0, false, true, []⟩ 5
    (by decide) (by decide)).2.2

theorem take_set_succ (gui : List Bool) (i : Nat) (b : Bool)
    (h : i < gui.length) :
    (gui.set i b).take (i + 1) = gui.take i ++ [b] := by
  induction gui generalizing i with
  | nil => simp at h
  | cons x xs ih =>
    cases i with
    | zero => simp
    | succ j =>
      simp only [List.set_cons_succ, List.take_succ_cons, List.cons_append]
      rw [ih j (by simpa using h)]

theorem refreshRows_eq (bs : List Bool) : ∀ (i : Nat) (gui : List Bool),
    gui.length = i + bs.length → refreshRows bs i gui = gui.take i ++ bs := by
  induction bs with
  | nil =>
    intro i gui h
    simp only [List.length_nil, Nat.add_zero] at h
    show gui = gui.take i ++ []
    rw [List.append_nil, List.take_of_length_le (by omega)]
  | cons b rest ih =>
    intro i gui h
    show refreshRows rest (i + 1) (gui.set i b) = gui.take i ++ b :: rest
    have hlen : (gui.set i b).length = (i + 1) + rest.length := by
      simp at h ⊢
      omega
    rw [ih (i + 1) (gui.set i b) hlen,
        take_set_succ gui i b (by simp at h; omega)]
    simp

/-- Claim C6: after `treeview_refresh_selection_now` runs, every row's
visual selected state equals the playlist's authoritative selected flag
for that row — the GUI selection becomes exactly the playlist's flag
list, independent of the GUI selection before the call — and the cursor
is untouched. -/
theorem treeview_refresh_selection_now_matches (v : View)
    (h : v.guiSel.length = v.flags.length) :
    (treeview_refresh_selection_now v).guiSel = v.flags ∧
    (∀ i, (treeview_refresh_selection_now v).guiSel.getD i false =
      v.flags.getD i false) ∧
    (treeview_refresh_selection_now v).cursor = v.cursor := by
  have key : (treeview_refresh_selection_now v).guiSel = v.flags := by
    unfold treeview_refresh_selection_now
    by_cases h0 : v.flags.length = 0
    · rw [if_pos h0]
      have h1 : v.flags = [] := List.eq_nil_of_length_eq_zero h0
      have h2 : v.guiSel = [] := List.eq_nil_of_length_eq_zero (by omega)
      rw [h1, h2]
    · rw [if_neg h0]
      show refreshRows v.flags 0 v.guiSel = v.flags
      rw [refreshRows_eq v.flags 0 v.guiSel (by omega)]
      simp
  refine ⟨key, fun i => by rw [key], ?_⟩
  unfold treeview_refresh_selection_now
  by_cases h0 : v.flags.length = 0
  · rw [if_pos h0]
  · rw [if_neg h0]

/-- Witness for C6 at a concrete view. -/
theorem treeview_refresh_selection_now_matches_witness :
    (treeview_refresh_selection_now
      ⟨[true, false, true], [false, true, false], some 1, false, false, 0⟩).guiSel =
      [true, false, true] :=
  (treeview_refresh_selection_now_matches
    ⟨[true, false, true], [false, true, false], some 1, false, false, 0⟩ rfl).1

theorem playlist_select_range_succ (flags : List Bool) (top n : Nat) :
    playlist_select_range flags top (n + 1) =
      aud_playlist_entry_set_selected (playlist_select_range flags top n)
        (top + n) true := by
  unfold playlist_select_range
  rw [List.range_succ, List.foldl_append]
  rfl

theorem select_range_length (flags : List Bool) (top n : Nat) :
    (playlist_select_range flags top n).length = flags.length := by
  induction n with
  | zero => simp [playlist_select_range, aud_playlist_select_all]
  | succ m ih =>
    rw [playlist_select_range_succ]
    unfold aud_playlist_entry_set_selected
    simp [ih]

theorem select_range_get (flags : List Bool) (top len i : Nat) :
    aud_playlist_entry_get_selected (playlist_select_range flags top len) i =
      decide (top ≤ i ∧ i < top + len ∧ i < flags.length) := by
  induction len with
  | zero =>
    show (flags.map (fun _ => false)).getD i false = _
    have lhs : (flags.map (fun _ => false)).getD i false = false := by
      rw [List.getD_eq_getElem?_getD, List.getElem?_map]
      cases flags[i]? <;> simp
    rw [lhs]
    exact (decide_eq_false (by omega)).symm
  | succ n ih =>
    rw [playlist_select_range_succ]
    show ((playlist_select_range flags top n).set (top + n) true).getD i false = _
    rw [List.getD_eq_getElem?_getD, List.getElem?_set, select_range_length]
    by_cases he : top + n = i
    · rw [if_pos he]
      by_cases hl : top + n < flags.length
      · rw [if_pos hl]
        simp only [Option.getD_some]
        exact (decide_eq_true (by omega)).symm
      · rw [if_neg hl]
        simp only [Option.getD_none]
        exact (decide_eq_false (by omega)).symm
    · rw [if_neg he, ← List.getD_eq_getElem?_getD]
      unfold aud_playlist_entry_get_selected at ih
      rw [ih, decide_eq_decide]
      omega

theorem count_selected_succ (flags : List Bool) (top n : Nat) :
    playlist_count_selected_in_range flags top (n + 1) =
      playlist_count_selected_in_range flags top n +
        (if aud_playlist_entry_get_selected flags (top + n) then 1 else 0) := by
  unfold playlist_count_selected_in_range
  rw [List.range_succ, List.foldl_append]
  simp only [List.foldl_cons, List.foldl_nil]
  by_cases hg : aud_playlist_entry_get_selected flags (top + n) = true <;>
    simp [hg]

theorem count_selected_all_true (g : List Bool) (top len : Nat)
    (hall : ∀ c, c < len → aud_playlist_entry_get_selected g (top + c) = true) :
    playlist_count_selected_in_range g top len = len := by
  induction len with
  | zero => rfl
  | succ n ih =>
    rw [count_selected_succ, ih (fun c hc => hall c (by omega)),
        if_pos (hall n (by omega))]

theorem count_selected_all_false (g : List Bool) (top len : Nat)
    (hall : ∀ c, c < len → aud_playlist_entry_get_selected g (top + c) = false) :
    playlist_count_selected_in_range g top len = 0 := by
  induction len with
  | zero => rfl
  | succ n ih =>
    rw [count_selected_succ, ih (fun c hc => hall c (by omega)),
        if_neg (by simp [hall n (by omega)])]

/-- Claim C8: after `playlist_select_range list top length` (with the
rows in range), a row `i` is selected iff `top ≤ i < top + length`;
`playlist_count_selected_in_range` on the same range then returns
exactly `length`, and on any disjoint range it returns 0. -/
theorem playlist_select_range_spec (flags : List Bool) (top len : Nat)
    (h : top + len ≤ flags.length) :
    (∀ i, aud_playlist_entry_get_selected (playlist_select_range flags top len) i =
      decide (top ≤ i ∧ i < top + len)) ∧
    playlist_count_selected_in_range (playlist_select_range flags top len)
      top len = len ∧
    (∀ top2 len2, top2 + len2 ≤ top ∨ top + len ≤ top2 →
      playlist_count_selected_in_range (playlist_select_range flags top len)
        top2 len2 = 0) := by
  refine ⟨?_, ?_, ?_⟩
  · intro i
    rw [select_range_get, decide_eq_decide]
    omega
  · apply count_selected_all_true
    intro c hc
    rw [select_range_get]
    exact decide_eq_true (by omega)
  · intro top2 len2 hd
    apply count_selected_all_false
    intro c hc
    rw [select_range_get]
    exact decide_eq_false (by omega)

theorem freadLoop_bound (goal : Nat) : ∀ (trace : List SysResult) (total : Nat),
    validTrace goal trace total = true → total ≤ goal →
    (freadLoop goal trace total).1 ≤ goal ∧
    ((freadLoop goal trace total).2 = Stop.goalReached →
      (freadLoop goal trace total).1 = goal) := by
  intro trace
  induction trace with
  | nil =>
    intro total hv ht
    by_cases h : goal ≤ total <;> simp [freadLoop, h] <;> omega
  | cons r rest ih =>
    intro total hv ht
    by_cases h : goal ≤ total
    · simp [freadLoop, h]
      omega
    · cases r with
      | err => simp [freadLoop, h]; exact ht
      | ok k =>
        cases k with
        | zero => simp [freadLoop, h]; exact ht
        | succ m =>
          simp only [validTrace, h, if_false, Bool.and_eq_true,
            decide_eq_true_eq] at hv
          obtain ⟨hv1, hv2⟩ := hv
          have := ih (total + (m + 1)) hv2 (by omega)
          simp only [freadLoop, h, if_false]
          exact this

theorem fwriteLoop_bound (goal : Nat) : ∀ (trace : List SysResult) (total : Nat),
    validTrace goal trace total = true → total ≤ goal →
    (fwriteLoop goal trace total).1 ≤ goal ∧
    ((fwriteLoop goal trace total).2 = Stop.goalReached →
      (fwriteLoop goal trace total).1 = goal) := by
  intro trace
  induction trace with
  | nil =>
    intro total hv ht
    by_cases h : goal ≤ total <;> simp [fwriteLoop, h] <;> omega
  | cons r rest ih =>
    intro total hv ht
    by_cases h : goal ≤ total
    · simp [fwriteLoop, h]
      omega
    · cases r with
      | err => simp [fwriteLoop, h]; exact ht
      | ok k =>
        simp only [validTrace, h, if_false, Bool.and_eq_true,
          decide_eq_true_eq] at hv
        obtain ⟨hv1, hv2⟩ := hv
        have := ih (total + k) hv2 (by omega)
        simp only [fwriteLoop, h, if_false]
        exact this

theorem gint_toNat_le (n : Nat) : (gint n).toNat ≤ n := by
  have h1 : n % 2 ^ 32 ≤ n := Nat.mod_le n _
  have h2 : n % 2 ^ 32 < 2 ^ 32 := Nat.mod_lt n (by norm_num)
  unfold gint
  by_cases h : n % 2 ^ 32 < 2 ^ 31
  · simp only [if_pos h, Int.toNat_natCast]
    exact h1
  · simp only [if_neg h]
    omega

theorem gint_toNat_of_small (n : Nat) (h : n < 2 ^ 31) : (gint n).toNat = n := by
  have hmod : n % 2 ^ 32 = n := Nat.mod_eq_of_lt (by omega)
  unfold gint
  rw [hmod, if_pos h]
  exact Int.toNat_natCast n

/-- Counterexample to claim C2: at `size = 1, nitems = 2^31` the C byte
goal `gint goal = size * nitems` wraps to `-(2^31)`, so on a valid,
non-empty outcome trace the read loop exits immediately with 0 bytes
transferred — the requested byte total `s*n = 2^31` was not reached, no
zero-byte transfer occurred and no OS error occurred — and `unix_fread`
returns 0; likewise `unix_fwrite`. -/
theorem unix_fread_goal_wrap_counterexample :
    gint (1 * 2 ^ 31) = -(2 ^ 31) ∧
    validTrace (gint (1 * 2 ^ 31)).toNat [SysResult.ok 1] 0 = true ∧
    unix_fread 1 (2 ^ 31) [SysResult.ok 1] = 0 ∧
    unix_fwrite 1 (2 ^ 31) [SysResult.ok 1] = 0 ∧
    (freadLoop (gint (1 * 2 ^ 31)).toNat [SysResult.ok 1] 0).1 = 0 ∧
    (freadLoop (gint (1 * 2 ^ 31)).toNat [SysResult.ok 1] 0).2 ≠
      Stop.zeroTransfer ∧
    (freadLoop (gint (1 * 2 ^ 31)).toNat [SysResult.ok 1] 0).2 ≠
      Stop.osError ∧
    1 * 2 ^ 31 ≠ 0 := by
  decide

/-- Amended claim C2: for POSIX-valid syscall outcome traces,
`unix_fread` and `unix_fwrite` return the number of whole elements
transferred — the loop's byte total divided by the element size,
rounding down — never exceeding the requested count; and whenever the
loop stops within the trace it stops only because the byte goal the
code actually computes — the 32-bit `gint` truncation of
`size * nitems` — was reached, a transfer of zero bytes occurred, or an
OS error occurred. Whenever `size * nitems < 2^31` that goal equals
`size * nitems`, and the original claim holds as stated. -/
theorem unix_fread_fwrite_element_counts (size nitems : Nat)
    (trace : List SysResult) (hs : 0 < size)
    (hv : validTrace (gint (size * nitems)).toNat trace 0 = true) :
    unix_fread size nitems trace =
      (freadLoop (gint (size * nitems)).toNat trace 0).1 / size ∧
    unix_fread size nitems trace ≤ nitems ∧
    unix_fwrite size nitems trace =
      (fwriteLoop (gint (size * nitems)).toNat trace 0).1 / size ∧
    unix_fwrite size nitems trace ≤ nitems ∧
    ((freadLoop (gint (size * nitems)).toNat trace 0).2 ≠ Stop.outOfTrace →
      ((freadLoop (gint (size * nitems)).toNat trace 0).1 =
        (gint (size * nitems)).toNat ∨
       (freadLoop (gint (size * nitems)).toNat trace 0).2 = Stop.zeroTransfer ∨
       (freadLoop (gint (size * nitems)).toNat trace 0).2 = Stop.osError)) ∧
    ((fwriteLoop (gint (size * nitems)).toNat trace 0).2 ≠ Stop.outOfTrace →
      ((fwriteLoop (gint (size * nitems)).toNat trace 0).1 =
        (gint (size * nitems)).toNat ∨
       (fwriteLoop (gint (size * nitems)).toNat trace 0).2 = Stop.zeroTransfer ∨
       (fwriteLoop (gint (size * nitems)).toNat trace 0).2 = Stop.osError)) ∧
    (size * nitems < 2 ^ 31 →
      (gint (size * nitems)).toNat = size * nitems) := by
  have hG : (gint (size * nitems)).toNat ≤ size * nitems := gint_toNat_le _
  have hr := freadLoop_bound (gint (size * nitems)).toNat trace 0 hv
    (Nat.zero_le _)
  have hw := fwriteLoop_bound (gint (size * nitems)).toNat trace 0 hv
    (Nat.zero_le _)
  have hdr : (freadLoop (gint (size * nitems)).toNat trace 0).1 / size ≤
      nitems := by
    calc (freadLoop (gint (size * nitems)).toNat trace 0).1 / size
        ≤ (size * nitems) / size := Nat.div_le_div_right (le_trans hr.1 hG)
      _ = nitems := Nat.mul_div_cancel_left nitems hs
  have hdw : (fwriteLoop (gint (size * nitems)).toNat trace 0).1 / size ≤
      nitems := by
    calc (fwriteLoop (gint (size * nitems)).toNat trace 0).1 / size
        ≤ (size * nitems) / size := Nat.div_le_div_right (le_trans hw.1 hG)
      _ = nitems := Nat.mul_div_cancel_left nitems hs
  refine ⟨by simp [unix_fread, hs], ?_, by simp [unix_fwrite, hs], ?_, ?_, ?_,
    gint_toNat_of_small (size * nitems)⟩
  · simpa [unix_fread, hs] using hdr
  · simpa [unix_fwrite, hs] using hdw
  · intro hne
    cases hstop : (freadLoop (gint (size * nitems)).toNat trace 0).2 with
    | goalReached => exact Or.inl (hr.2 hstop)
    | zeroTransfer => exact Or.inr (Or.inl rfl)
    | osError => exact Or.inr (Or.inr rfl)
    | outOfTrace => exact absurd hstop hne
  · intro hne
    cases hstop : (fwriteLoop (gint (size * nitems)).toNat trace 0).2 with
    | goalReached => exact Or.inl (hw.2 hstop)
    | zeroTransfer => exact Or.inr (Or.inl rfl)
    | osError => exact Or.inr (Or.inr rfl)
    | outOfTrace => exact absurd hstop hne

/-- Witness for the amended C2 at a concrete size, count and valid
outcome trace (no wrap: `2 * 3 < 2^31`). -/
theorem unix_fread_fwrite_element_counts_witness :
    0 < 2 ∧
    validTrace (gint (2 * 3)).toNat [SysResult.ok 4, SysResult.ok 2] 0 = true ∧
    unix_fread 2 3 [SysResult.ok 4, SysResult.ok 2] ≤ 3 :=
  ⟨by decide, by decide,
   (unix_fread_fwrite_element_counts 2 3 [SysResult.ok 4, SysResult.ok 2]
     (by decide) (by decide)).2.1⟩

/-- Witness for C8 at a concrete playlist and range. -/
theorem playlist_select_range_spec_witness :
    playlist_count_selected_in_range
      (playlist_select_range [true, false, true, false, true] 1 3) 1 3 = 3 :=
  (playlist_select_range_spec [true, false, true, false, true] 1 3
    (by decide)).2.1
